import Mathlib

/-!
Verification development for the `pybloom` Bloom-filter package
(`pybloom/bloom_filter.py`).

The Python class `BloomFilter` is embedded shallowly:

* the byte array `_bit_array` becomes a `List Nat` of byte values;
* machine integers become `Nat` / `Int`;
* the two external digest functions (`hashlib.sha256`, `hashlib.md5`)
  are parameters of the operations, since they are library calls whose
  only property used by the code is that they are functions from bytes
  to bytes;
* an item is represented by the canonical bytes that
  `repr(item).encode("utf-8")` produces (or by a marker saying that
  `repr` raised), since `_get_hashes` only ever looks at those bytes;
* Python floats are modelled as real numbers, and the one catchable
  domain error of `math.log` is modelled by an `Option`-valued `mathLog`.
-/

/-- The module constant `_HASH_SALT_SUFFIX = b"$_salt_$"` as byte values. -/
def hashSaltSuffix : List Nat := [36, 95, 115, 97, 108, 116, 95, 36]

/-- `int.from_bytes(bs, byteorder="big", signed=False)`. -/
def intFromBytesBE (bs : List Nat) : Nat :=
  bs.foldl (fun acc b => acc * 256 + b) 0

/-- The state of a `BloomFilter` instance: fields `_expected_items`,
`_fp_rate`, `_num_bits`, `_num_hashes`, `_num_bytes`, `_bit_array`,
`_items_added_count`. -/
structure BloomFilter where
  expected_items : Int
  fp_rate : Real
  num_bits : Nat
  num_hashes : Nat
  num_bytes : Nat
  bit_array : List Nat
  items_added_count : Nat

/-- `BloomFilter._get_hashes`: the canonical bytes are digested with the
primary hash and with the salted secondary hash, the first 8 bytes of each
digest are read big-endian as `h1`, `h2`, and the `k` indices are
`(h1 + i * h2) % m` for `i = 0 .. k-1`. -/
def BloomFilter.getHashes (sha256 md5 : List Nat → List Nat)
    (bf : BloomFilter) (itemBytes : List Nat) : List Nat :=
  let h1 := intFromBytesBE ((sha256 itemBytes).take 8)
  let h2 := intFromBytesBE ((md5 (itemBytes ++ hashSaltSuffix)).take 8)
  (List.range bf.num_hashes).map (fun i => (h1 + i * h2) % bf.num_bits)

/-- Read a byte of the bit array (`self._bit_array[byte_index]`). -/
def byteGet (arr : List Nat) (i : Nat) : Nat := arr.getD i 0

/-- `self._bit_array[index // 8] & (1 << (index % 8))` is nonzero. -/
def bitIsSet (arr : List Nat) (index : Nat) : Bool :=
  byteGet arr (index / 8) &&& (1 <<< (index % 8)) != 0

/-- `self._bit_array[index // 8] |= (1 << (index % 8))`. -/
def setBitAt (arr : List Nat) (index : Nat) : List Nat :=
  arr.set (index / 8) (byteGet arr (index / 8) ||| (1 <<< (index % 8)))

/-- One iteration of the loop body of `add`: the accumulated state is the
byte array together with the `indices_set` flag, which becomes true when
the bit at the current index was not already set. -/
def addStep (st : List Nat × Bool) (index : Nat) : List Nat × Bool :=
  (setBitAt st.1 index, st.2 || !(bitIsSet st.1 index))

/-- `BloomFilter.add` on canonical bytes: set every indexed bit, then
increment `_items_added_count` only when `indices_set or num_hashes == 0`. -/
def BloomFilter.add (sha256 md5 : List Nat → List Nat)
    (bf : BloomFilter) (itemBytes : List Nat) : BloomFilter :=
  let res := (bf.getHashes sha256 md5 itemBytes).foldl addStep (bf.bit_array, false)
  { bf with
    bit_array := res.1
    items_added_count :=
      if res.2 || bf.num_hashes == 0 then bf.items_added_count + 1
      else bf.items_added_count }

/-- `BloomFilter.might_contain` on canonical bytes: false when
`_num_bits == 0`, otherwise true exactly when every indexed bit is set
(the Python loop returns false at the first unset bit, which is `List.all`). -/
def BloomFilter.mightContain (sha256 md5 : List Nat → List Nat)
    (bf : BloomFilter) (itemBytes : List Nat) : Bool :=
  if bf.num_bits = 0 then false
  else (bf.getHashes sha256 md5 itemBytes).all (fun index => bitIsSet bf.bit_array index)

/-- `BloomFilter.clear`: fresh all-zero byte array of the same
`_num_bytes` length, counter reset to 0. -/
def BloomFilter.clear (bf : BloomFilter) : BloomFilter :=
  { bf with bit_array := List.replicate bf.num_bytes 0, items_added_count := 0 }

/-- `BloomFilter.__len__`. -/
def BloomFilter.lenFilter (bf : BloomFilter) : Nat := bf.items_added_count

section BitLemmas

/-- `bitIsSet` is the `testBit` of the addressed byte. -/
theorem bitIsSet_eq_testBit (arr : List Nat) (i : Nat) :
    bitIsSet arr i = (byteGet arr (i / 8)).testBit (i % 8) := by
  unfold bitIsSet
  rw [Nat.shiftLeft_eq, one_mul, Nat.and_two_pow]
  cases h : (byteGet arr (i / 8)).testBit (i % 8) <;>
    simp [h, (Nat.two_pow_pos (i % 8)).ne']

theorem length_setBitAt (arr : List Nat) (j : Nat) :
    (setBitAt arr j).length = arr.length := by
  simp [setBitAt]

theorem getD_set_zero (arr : List Nat) (n v i : Nat) :
    (arr.set n v).getD i 0 = if n = i ∧ n < arr.length then v else arr.getD i 0 := by
  rw [List.getD_eq_getElem?_getD, List.getD_eq_getElem?_getD, List.getElem?_set]
  rcases eq_or_ne n i with rfl | hne
  · by_cases hl : n < arr.length
    · simp [hl]
    · simp [hl, List.getElem?_eq_none (Nat.le_of_not_lt hl)]
  · simp [hne]

/-- Setting one bit never clears another bit. -/
theorem bitIsSet_setBitAt_mono (arr : List Nat) (i j : Nat)
    (h : bitIsSet arr i = true) : bitIsSet (setBitAt arr j) i = true := by
  rw [bitIsSet_eq_testBit] at h ⊢
  unfold byteGet at h
  unfold setBitAt byteGet
  rw [getD_set_zero]
  by_cases hc : j / 8 = i / 8 ∧ j / 8 < arr.length
  · rw [if_pos hc, Nat.shiftLeft_eq, one_mul, Nat.testBit_or, hc.1]
    rw [List.getD_eq_getElem?_getD] at h
    simp [h]
  · rw [if_neg hc]
    exact h

/-- Setting a bit whose byte is inside the array really sets it. -/
theorem bitIsSet_setBitAt_self (arr : List Nat) (i : Nat)
    (h : i / 8 < arr.length) : bitIsSet (setBitAt arr i) i = true := by
  rw [bitIsSet_eq_testBit]
  unfold setBitAt byteGet
  rw [getD_set_zero, if_pos ⟨rfl, h⟩, Nat.shiftLeft_eq, one_mul, Nat.testBit_or]
  simp [Nat.testBit_two_pow_self]

theorem length_foldl_setBitAt (idxs : List Nat) (arr : List Nat) :
    (idxs.foldl setBitAt arr).length = arr.length := by
  induction idxs generalizing arr with
  | nil => rfl
  | cons j rest ih => rw [List.foldl_cons, ih, length_setBitAt]

theorem bitIsSet_foldl_mono (idxs : List Nat) (arr : List Nat) (i : Nat)
    (h : bitIsSet arr i = true) :
    bitIsSet (idxs.foldl setBitAt arr) i = true := by
  induction idxs generalizing arr with
  | nil => exact h
  | cons j rest ih => exact ih _ (bitIsSet_setBitAt_mono _ _ _ h)

theorem bitIsSet_foldl_self (idxs : List Nat) (arr : List Nat) (i : Nat)
    (hb : ∀ j ∈ idxs, j / 8 < arr.length) (hi : i ∈ idxs) :
    bitIsSet (idxs.foldl setBitAt arr) i = true := by
  induction idxs generalizing arr with
  | nil => cases hi
  | cons j rest ih =>
    rw [List.foldl_cons]
    rcases List.mem_cons.mp hi with rfl | hmem
    · exact bitIsSet_foldl_mono _ _ _
        (bitIsSet_setBitAt_self _ _ (hb i (List.mem_cons_self _ _)))
    · exact ih _ (fun x hx => by
        rw [length_setBitAt]; exact hb x (List.mem_cons_of_mem _ hx)) hmem

/-- The byte array computed by `add`'s loop ignores the `indices_set` flag. -/
theorem foldl_addStep_fst (idxs : List Nat) (arr : List Nat) (b : Bool) :
    (idxs.foldl addStep (arr, b)).1 = idxs.foldl setBitAt arr := by
  induction idxs generalizing arr b with
  | nil => rfl
  | cons j rest ih => simp only [List.foldl_cons, addStep, ih]

end BitLemmas

section AddLemmas

theorem BloomFilter.add_num_bits (sha256 md5 : List Nat → List Nat)
    (bf : BloomFilter) (y : List Nat) :
    (bf.add sha256 md5 y).num_bits = bf.num_bits := rfl

theorem BloomFilter.add_num_hashes (sha256 md5 : List Nat → List Nat)
    (bf : BloomFilter) (y : List Nat) :
    (bf.add sha256 md5 y).num_hashes = bf.num_hashes := rfl

theorem BloomFilter.add_bit_array (sha256 md5 : List Nat → List Nat)
    (bf : BloomFilter) (y : List Nat) :
    (bf.add sha256 md5 y).bit_array =
      (bf.getHashes sha256 md5 y).foldl setBitAt bf.bit_array := by
  simp only [BloomFilter.add]
  exact foldl_addStep_fst _ _ _

theorem BloomFilter.add_length (sha256 md5 : List Nat → List Nat)
    (bf : BloomFilter) (y : List Nat) :
    (bf.add sha256 md5 y).bit_array.length = bf.bit_array.length := by
  rw [BloomFilter.add_bit_array, length_foldl_setBitAt]

theorem BloomFilter.getHashes_length (sha256 md5 : List Nat → List Nat)
    (bf : BloomFilter) (y : List Nat) :
    (bf.getHashes sha256 md5 y).length = bf.num_hashes := by
  simp [BloomFilter.getHashes]

theorem BloomFilter.getHashes_lt (sha256 md5 : List Nat → List Nat)
    (bf : BloomFilter) (y : List Nat) (hm : 0 < bf.num_bits) :
    ∀ j ∈ bf.getHashes sha256 md5 y, j < bf.num_bits := by
  intro j hj
  simp only [BloomFilter.getHashes, List.mem_map, List.mem_range] at hj
  obtain ⟨i, -, rfl⟩ := hj
  exact Nat.mod_lt _ hm

/-- `add` never clears a set bit. -/
theorem BloomFilter.add_mono (sha256 md5 : List Nat → List Nat)
    (bf : BloomFilter) (y : List Nat) (i : Nat)
    (h : bitIsSet bf.bit_array i = true) :
    bitIsSet (bf.add sha256 md5 y).bit_array i = true := by
  rw [BloomFilter.add_bit_array]
  exact bitIsSet_foldl_mono _ _ _ h

/-- `add` sets every one of the added item's own bits. -/
theorem BloomFilter.add_sets_own_bits (sha256 md5 : List Nat → List Nat)
    (bf : BloomFilter) (y : List Nat) (hm : 0 < bf.num_bits)
    (hlen : bf.num_bits ≤ 8 * bf.bit_array.length)
    (j : Nat) (hj : j ∈ bf.getHashes sha256 md5 y) :
    bitIsSet (bf.add sha256 md5 y).bit_array j = true := by
  rw [BloomFilter.add_bit_array]
  apply bitIsSet_foldl_self
  · intro a ha
    have := bf.getHashes_lt sha256 md5 y hm a ha
    omega
  · exact hj

end AddLemmas

/-- A stand-in for `hashlib.sha256(...).digest()`: any function from bytes
to bytes works for the theorems, this one is used in concrete witnesses. -/
def shaStub (bs : List Nat) : List Nat := List.replicate 32 (bs.length % 256)

/-- A stand-in for `hashlib.md5(...).digest()` in concrete witnesses. -/
def md5Stub (bs : List Nat) : List Nat := List.replicate 16 ((bs.length + 7) % 256)

/-- C1. No false negatives: once `add(x)` has run, `might_contain(x)` is
true, and stays true after any further sequence of `add` calls with
arbitrary items, as long as `clear` has not run.  The hypotheses are the
construction invariants: at least one bit, and the byte array long enough
to hold `num_bits` bits. -/
theorem no_false_negatives (sha256 md5 : List Nat → List Nat) (bf : BloomFilter)
    (x : List Nat) (rest : List (List Nat))
    (hm : 0 < bf.num_bits) (hlen : bf.num_bits ≤ 8 * bf.bit_array.length) :
    BloomFilter.mightContain sha256 md5
      (rest.foldl (fun b y => b.add sha256 md5 y) (bf.add sha256 md5 x)) x = true := by
  have key : ∀ (zs : List (List Nat)) (b : BloomFilter),
      b.num_bits = bf.num_bits →
      (∀ j ∈ b.getHashes sha256 md5 x, bitIsSet b.bit_array j = true) →
      BloomFilter.mightContain sha256 md5
        (zs.foldl (fun b y => b.add sha256 md5 y) b) x = true := by
    intro zs
    induction zs with
    | nil =>
      intro b hb hbits
      rw [List.foldl_nil, BloomFilter.mightContain, if_neg (by omega)]
      rw [List.all_eq_true]
      exact hbits
    | cons y ys ih =>
      intro b hb hbits
      rw [List.foldl_cons]
      refine ih (b.add sha256 md5 y) hb ?_
      intro j hj
      exact b.add_mono sha256 md5 y j (hbits j hj)
  refine key rest (bf.add sha256 md5 x) rfl ?_
  intro j hj
  exact bf.add_sets_own_bits sha256 md5 x hm hlen j hj

theorem no_false_negatives_witness :
    BloomFilter.mightContain shaStub md5Stub
      (List.foldl (fun b y => b.add shaStub md5Stub y)
        ((⟨100, 0, 8, 2, 1, [0], 0⟩ : BloomFilter).add shaStub md5Stub [1, 2])
        [[7], [9, 9]]) [1, 2] = true :=
  no_false_negatives shaStub md5Stub ⟨100, 0, 8, 2, 1, [0], 0⟩ [1, 2] [[7], [9, 9]]
    (by decide) (by decide)

/-- C2 evidence: on a fresh one-byte filter with two hash rounds, adding
the same item twice leaves `items_added_count` at 1, because the second
call finds every bit already set, `indices_set` stays false, and the
counter is not incremented. -/
theorem add_duplicate_counts_once :
    ((((⟨50, 0, 8, 2, 1, [0], 0⟩ : BloomFilter).add shaStub md5Stub
        [1]).add shaStub md5Stub [1]).items_added_count = 1) ∧
    (((⟨50, 0, 8, 2, 1, [0], 0⟩ : BloomFilter).add shaStub md5Stub
        [1]).items_added_count = 1) := by
  constructor <;> decide

/-- C10. Bit monotonicity: `add` only ORs single-bit masks into the byte
array, so a set bit stays set across any `add`; `clear` reallocates an
all-zero array of the same `num_bytes` length. -/
theorem bits_monotone (sha256 md5 : List Nat → List Nat) (bf : BloomFilter)
    (y : List Nat) (i : Nat) :
    (bitIsSet bf.bit_array i = true →
      bitIsSet (bf.add sha256 md5 y).bit_array i = true) ∧
    (bf.clear).bit_array = List.replicate bf.num_bytes 0 ∧
    (bf.clear).bit_array.length = bf.num_bytes :=
  ⟨bf.add_mono sha256 md5 y i, rfl, by simp [BloomFilter.clear]⟩

theorem bits_monotone_witness :
    bitIsSet ((⟨1, 0, 8, 1, 1, [1], 0⟩ : BloomFilter).add shaStub
      md5Stub [5]).bit_array 0 = true :=
  (bits_monotone shaStub md5Stub ⟨1, 0, 8, 1, 1, [1], 0⟩ [5] 0).1 (by decide)

/-- C3. Hash-index generation: the sequence has length `num_hashes`, every
index is below `num_bits`, the `i`-th index is
`(h1 + i * h2) % num_bits` with `h1` the first 8 digest bytes of the item
bytes read big-endian and `h2` the same for the salted secondary digest,
and (the function being pure) repeated calls give the identical sequence. -/
theorem getHashes_spec (sha256 md5 : List Nat → List Nat) (bf : BloomFilter)
    (itemBytes : List Nat) (hm : 0 < bf.num_bits) :
    (bf.getHashes sha256 md5 itemBytes).length = bf.num_hashes ∧
    (∀ j ∈ bf.getHashes sha256 md5 itemBytes, j < bf.num_bits) ∧
    (∀ i, i < bf.num_hashes →
      (bf.getHashes sha256 md5 itemBytes).getD i 0 =
        (intFromBytesBE ((sha256 itemBytes).take 8) +
          i * intFromBytesBE ((md5 (itemBytes ++ hashSaltSuffix)).take 8)) %
            bf.num_bits) ∧
    bf.getHashes sha256 md5 itemBytes = bf.getHashes sha256 md5 itemBytes := by
  refine ⟨bf.getHashes_length sha256 md5 itemBytes,
    bf.getHashes_lt sha256 md5 itemBytes hm, ?_, rfl⟩
  intro i hi
  simp [BloomFilter.getHashes, List.getD_eq_getElem?_getD, List.getElem?_range hi]

theorem getHashes_spec_witness :
    ((⟨10, 0, 8, 2, 1, [0], 0⟩ : BloomFilter).getHashes shaStub
      md5Stub [3]).length = 2 :=
  (getHashes_spec shaStub md5Stub ⟨10, 0, 8, 2, 1, [0], 0⟩ [3] (by decide)).1

/-- C6. `might_contain` returns false immediately when `num_bits = 0`, and
otherwise is true exactly when every one of the item's hash-index bits is
set; as a Lean function of the state it mutates nothing. -/
theorem mightContain_spec (sha256 md5 : List Nat → List Nat)
    (bf : BloomFilter) (y : List Nat) :
    (bf.num_bits = 0 → bf.mightContain sha256 md5 y = false) ∧
    (bf.num_bits ≠ 0 →
      (bf.mightContain sha256 md5 y = true ↔
        ∀ j ∈ bf.getHashes sha256 md5 y, bitIsSet bf.bit_array j = true)) := by
  constructor
  · intro h
    simp [BloomFilter.mightContain, h]
  · intro h
    simp [BloomFilter.mightContain, h, List.all_eq_true]

theorem mightContain_spec_witness :
    ((⟨1, 0, 0, 1, 0, [], 0⟩ : BloomFilter).mightContain shaStub
      md5Stub [9] = false) ∧
    ((⟨1, 0, 8, 2, 1, [255], 0⟩ : BloomFilter).mightContain shaStub
      md5Stub [9] = true) :=
  ⟨(mightContain_spec shaStub md5Stub ⟨1, 0, 0, 1, 0, [], 0⟩ [9]).1 rfl,
   ((mightContain_spec shaStub md5Stub ⟨1, 0, 8, 2, 1, [255], 0⟩ [9]).2
      (by decide)).mpr (by decide)⟩

/-- An item as `_get_hashes` sees it: either `repr(item).encode("utf-8")`
yields these bytes, or the conversion raises and `_get_hashes` turns it
into a `TypeError`. -/
inductive Item where
  | reprBytes (bs : List Nat)
  | unreprable

/-- The guarded canonicalization at the top of `_get_hashes`. -/
def canonicalize : Item → Except Unit (List Nat)
  | .reprBytes bs => .ok bs
  | .unreprable => .error ()

/-- `add` with the canonicalization attempt included.  In the source the
generator raises on its first iteration, before any bit is touched and
before the counter moves, so the error case pairs the raised error with
the unchanged prior state. -/
def BloomFilter.addTry (sha256 md5 : List Nat → List Nat)
    (bf : BloomFilter) (item : Item) : BloomFilter × Option Unit :=
  match canonicalize item with
  | .error e => (bf, some e)
  | .ok bs => (bf.add sha256 md5 bs, none)

/-- C8. `add` is all-or-nothing: when canonicalization fails the error
propagates and the instance is exactly the prior state; when it succeeds
`add` raises nothing. -/
theorem add_all_or_nothing (sha256 md5 : List Nat → List Nat)
    (bf : BloomFilter) (item : Item) :
    (∀ e, canonicalize item = .error e →
      bf.addTry sha256 md5 item = (bf, some e)) ∧
    (∀ bs, canonicalize item = .ok bs →
      bf.addTry sha256 md5 item = (bf.add sha256 md5 bs, none)) := by
  constructor <;> intro v hv <;> simp [BloomFilter.addTry, hv]

theorem add_all_or_nothing_witness :
    ((⟨3, 0, 8, 1, 1, [0], 0⟩ : BloomFilter).addTry shaStub md5Stub
      Item.unreprable = (⟨3, 0, 8, 1, 1, [0], 0⟩, some ())) ∧
    (((⟨3, 0, 8, 1, 1, [0], 0⟩ : BloomFilter).addTry shaStub md5Stub
      (Item.reprBytes [2])).2 = none) :=
  ⟨(add_all_or_nothing shaStub md5Stub ⟨3, 0, 8, 1, 1, [0], 0⟩
      Item.unreprable).1 () rfl,
   by rw [(add_all_or_nothing shaStub md5Stub ⟨3, 0, 8, 1, 1, [0], 0⟩
      (Item.reprBytes [2])).2 [2] rfl]⟩

/-!
Canonicalization model for C5.  `_get_hashes` canonicalizes with
`repr(item).encode("utf-8")`.  `repr` is a host-language builtin, so the
fragment of Python values the spec discusses (ints, bools, strings,
tuples) is embedded together with the byte output of `repr` on it;
strings are byte lists of their UTF-8 code units. -/
inductive PyValue where
  | pyInt (n : Int)
  | pyBool (b : Bool)
  | pyStr (s : List Nat)
  | pyTuple (elems : List PyValue)

/-- Byte values of the decimal digits of a natural number. -/
def natDigits (n : Nat) : List Nat :=
  (Nat.toDigits 10 n).map (fun c => c.toNat)

/-- `repr` of a Python `int`: decimal digits, with a leading `-` (byte 45)
when negative. -/
def intRepr : Int → List Nat
  | .ofNat n => natDigits n
  | .negSucc n => 45 :: natDigits (n + 1)

/-- The escaping `repr` applies inside a quoted string: the chosen quote
and the backslash (byte 92) are backslash-escaped. -/
def escapeStr (q : Nat) : List Nat → List Nat
  | [] => []
  | c :: rest => (if c = q ∨ c = 92 then [92, c] else [c]) ++ escapeStr q rest

/-- `repr` of a Python `str`: single-quoted (byte 39), except
double-quoted (byte 34) when the text has a single quote and no double
quote. -/
def strRepr (s : List Nat) : List Nat :=
  let q : Nat := if 39 ∈ s ∧ ¬34 ∈ s then 34 else 39
  q :: escapeStr q s ++ [q]

mutual

/-- The Python `repr` builtin on the embedded fragment, as UTF-8 bytes:
`repr(True) = "True"`, `repr(1) = "1"`, strings are quoted, tuples are
parenthesized with `", "` separators and a trailing comma when of
length one. -/
def pyRepr : PyValue → List Nat
  | .pyInt n => intRepr n
  | .pyBool b => if b then [84, 114, 117, 101] else [70, 97, 108, 115, 101]
  | .pyStr s => strRepr s
  | .pyTuple [] => [40, 41]
  | .pyTuple [v] => 40 :: (pyRepr v ++ [44, 41])
  | .pyTuple (v :: w :: rest) => 40 :: (pyRepr v ++ reprTail (w :: rest) ++ [41])

/-- `", elem"` groups for the second and later tuple elements. -/
def reprTail : List PyValue → List Nat
  | [] => []
  | v :: rest => 44 :: 32 :: (pyRepr v ++ reprTail rest)

end

/-- The naive display conversion `str(item)`: the identity on strings,
and `repr` on the other embedded types. -/
def pyStrConv : PyValue → List Nat
  | .pyStr s => s
  | v => pyRepr v

/-- C5. The canonical bytes discriminate types: `True` and `1`
canonicalize differently, no tuple ever canonicalizes like a string (in
particular like its own string rendering), while the naive `str`
conversion would identify a tuple with its rendering — the collision the
chosen encoding avoids. -/
theorem canonical_type_discrimination :
    ((pyRepr (.pyBool true) == pyRepr (.pyInt 1)) = false) ∧
    (∀ (elems : List PyValue) (s : List Nat),
      (pyRepr (.pyTuple elems) == pyRepr (.pyStr s)) = false) ∧
    (pyStrConv (.pyTuple [.pyInt 1, .pyInt 2]) =
      pyStrConv (.pyStr (pyRepr (.pyTuple [.pyInt 1, .pyInt 2])))) ∧
    ((pyRepr (.pyTuple [.pyInt 1, .pyInt 2]) ==
      pyRepr (.pyStr (pyRepr (.pyTuple [.pyInt 1, .pyInt 2])))) = false) := by
  refine ⟨by decide, ?_, by decide, by decide⟩
  intro elems s
  rw [beq_eq_false_iff_ne]
  intro h
  have hhead := congrArg List.head? h
  have hq : (pyRepr (.pyStr s)).head? = some 39 ∨
      (pyRepr (.pyStr s)).head? = some 34 := by
    show (strRepr s).head? = some 39 ∨ (strRepr s).head? = some 34
    unfold strRepr
    by_cases hc : 39 ∈ s ∧ ¬34 ∈ s
    · right
      simp [hc]
    · left
      simp [hc]
  have htup : (pyRepr (.pyTuple elems)).head? = some 40 := by
    match elems with
    | [] => rfl
    | [v] => rfl
    | v :: w :: rest => rfl
  rw [htup] at hhead
  rcases hq with hq | hq <;> rw [hq] at hhead <;> exact absurd hhead (by decide)

/-!
Real-number model of the floating-point parts.  Python floats are
modelled as real numbers; `math.log`'s domain error (the one catchable
condition reachable here) is modelled by an `Option`. -/

/-- `math.log`: raises (=`none`) on a non-positive argument. -/
noncomputable def mathLog (x : Real) : Option Real :=
  if x ≤ 0 then none else some (Real.log x)

/-- `BloomFilter._calculate_optimal_params`: the `n <= 0` safeguard, the
two ceilinged formulas (with `k` computed from the pre-clamp `m`, as in
the source), the `except` fallback to `(1, 1)`, and the final clamps. -/
noncomputable def calculateOptimalParams (n : Int) (p : Real) : Int × Int :=
  if n ≤ 0 then (1, 1)
  else
    match mathLog p with
    | none => (1, 1)
    | some lp =>
      let m : Int := ⌈-((n : Real) * lp) / (Real.log 2) ^ 2⌉
      let k : Int := ⌈((m : Real) / (n : Real)) * Real.log 2⌉
      (max 1 m, max 1 k)

/-- `BloomFilter.current_false_positive_rate`: `1.0` when `m = 0`, else
`(1 - exp(max(-k * n_current / m, -709)))^k`. -/
noncomputable def BloomFilter.currentFalsePositiveRate (bf : BloomFilter) : Real :=
  if bf.num_bits = 0 then 1
  else
    let exponent : Real :=
      -(bf.num_hashes : Real) * (bf.items_added_count : Real) / (bf.num_bits : Real)
    let clamped : Real := max exponent (-709)
    (1 - Real.exp clamped) ^ bf.num_hashes

/-- C9. The rate estimate is `1.0` for `m = 0`, otherwise exactly the
clamped analytic formula, and it always lies in `[0, 1]`; as a Lean
function of the state it mutates nothing. -/
theorem currentFalsePositiveRate_spec (bf : BloomFilter) :
    (bf.num_bits = 0 → bf.currentFalsePositiveRate = 1) ∧
    (bf.num_bits ≠ 0 → bf.currentFalsePositiveRate =
      (1 - Real.exp (max (-(bf.num_hashes : Real) * (bf.items_added_count : Real) /
        (bf.num_bits : Real)) (-709))) ^ bf.num_hashes) ∧
    0 ≤ bf.currentFalsePositiveRate ∧
    bf.currentFalsePositiveRate ≤ 1 := by
  refine ⟨fun h => by simp [BloomFilter.currentFalsePositiveRate, h],
    fun h => by simp [BloomFilter.currentFalsePositiveRate, h], ?_, ?_⟩ <;>
  · unfold BloomFilter.currentFalsePositiveRate
    by_cases h : bf.num_bits = 0
    · simp [h]
    · rw [if_neg h]
      have hexp : max (-(bf.num_hashes : Real) * (bf.items_added_count : Real) /
          (bf.num_bits : Real)) (-709) ≤ 0 := by
        apply max_le _ (by norm_num)
        have hnn : (0:Real) ≤ (bf.num_hashes : Real) * (bf.items_added_count : Real) /
            (bf.num_bits : Real) := by positivity
        have heq : -(bf.num_hashes : Real) * (bf.items_added_count : Real) /
            (bf.num_bits : Real) =
            -((bf.num_hashes : Real) * (bf.items_added_count : Real) /
              (bf.num_bits : Real)) := by ring
        rw [heq]
        exact neg_nonpos.mpr hnn
      have h1 : Real.exp (max (-(bf.num_hashes : Real) *
          (bf.items_added_count : Real) / (bf.num_bits : Real)) (-709)) ≤ 1 :=
        Real.exp_le_one_iff.mpr hexp
      have h2 : 0 < Real.exp (max (-(bf.num_hashes : Real) *
          (bf.items_added_count : Real) / (bf.num_bits : Real)) (-709)) :=
        Real.exp_pos _
      first
      | exact pow_nonneg (by linarith) _
      | exact pow_le_one₀ (by linarith) (by linarith)

theorem currentFalsePositiveRate_spec_witness :
    (⟨1, 0, 0, 1, 0, [], 0⟩ : BloomFilter).currentFalsePositiveRate = 1 ∧
    0 ≤ (⟨1, 0, 8, 2, 1, [0], 3⟩ : BloomFilter).currentFalsePositiveRate :=
  ⟨(currentFalsePositiveRate_spec ⟨1, 0, 0, 1, 0, [], 0⟩).1 rfl,
   (currentFalsePositiveRate_spec ⟨1, 0, 8, 2, 1, [0], 3⟩).2.2.1⟩

/-- A constructor argument as Python's dynamic typing sees it: an `int`
(`numbers.Integral`), a `float` (`numbers.Real` but not integral), or a
value of some other type (e.g. a string), which is neither. -/
inductive PyArg where
  | intArg (n : Int)
  | floatArg (x : Real)
  | otherArg

/-- The numeric value of an argument when `isinstance(·, numbers.Real)`
holds (`int` is also `Real` in the numeric tower). -/
noncomputable def realValue? : PyArg → Option Real
  | .intArg n => some (n : Real)
  | .floatArg x => some x
  | .otherArg => none

/-- The raised exceptions: `ValueError` from `__init__` (the spec's
`InvalidArgument`) and `TypeError` from `_get_hashes` (the spec's
`Unhashable`). -/
inductive PyError where
  | invalidArgument
  | unhashable

/-- `BloomFilter.__init__`: validate `n` and `p`, derive `(m, k)`, clamp
them to at least 1, allocate `ceil(m / 8)` zero bytes, then bulk-add any
initial data (each element can raise `Unhashable`). -/
noncomputable def mkBloomFilter (sha256 md5 : List Nat → List Nat)
    (expectedItems falsePositiveRate : PyArg) (initialData : List Item) :
    Except PyError BloomFilter :=
  match expectedItems with
  | .floatArg _ => .error .invalidArgument
  | .otherArg => .error .invalidArgument
  | .intArg n =>
    if n ≤ 0 then .error .invalidArgument
    else
      match realValue? falsePositiveRate with
      | none => .error .invalidArgument
      | some p =>
        if 0 < p ∧ p < 1 then
          let mk := calculateOptimalParams n p
          let m := (max 1 mk.1).toNat
          let k := (max 1 mk.2).toNat
          let nb := (m + 7) / 8
          initialData.foldlM
            (fun b it =>
              match canonicalize it with
              | .error _ => .error PyError.unhashable
              | .ok bs => .ok (b.add sha256 md5 bs))
            ⟨n, p, m, k, nb, List.replicate nb 0, 0⟩
        else .error .invalidArgument

/-- C7. Construction is rejected with `InvalidArgument` for every
non-positive or non-integral `n` and every `p` outside `(0, 1)` or
non-real, producing no object; for every valid pair it succeeds. -/
theorem construction_validation (sha256 md5 : List Nat → List Nat) :
    (∀ (x : Real) (p : PyArg) (d : List Item),
      mkBloomFilter sha256 md5 (.floatArg x) p d = .error .invalidArgument) ∧
    (∀ (p : PyArg) (d : List Item),
      mkBloomFilter sha256 md5 .otherArg p d = .error .invalidArgument) ∧
    (∀ (n : Int) (p : PyArg) (d : List Item), n ≤ 0 →
      mkBloomFilter sha256 md5 (.intArg n) p d = .error .invalidArgument) ∧
    (mkBloomFilter sha256 md5 (.intArg 100) (.floatArg 0) [] =
      .error .invalidArgument) ∧
    (mkBloomFilter sha256 md5 (.intArg 100) (.floatArg 1) [] =
      .error .invalidArgument) ∧
    (mkBloomFilter sha256 md5 (.intArg 100) (.floatArg (3 / 2)) [] =
      .error .invalidArgument) ∧
    (mkBloomFilter sha256 md5 (.intArg 100) .otherArg [] =
      .error .invalidArgument) ∧
    (∀ (n : Int) (p : Real), 0 < n → 0 < p → p < 1 →
      ∃ bf, mkBloomFilter sha256 md5 (.intArg n) (.floatArg p) [] = .ok bf) := by
  refine ⟨fun x p d => rfl, fun p d => rfl, ?_, ?_, ?_, ?_, ?_, ?_⟩
  · intro n p d hn
    simp [mkBloomFilter, hn]
  · simp [mkBloomFilter, realValue?]
  · simp [mkBloomFilter, realValue?]
  · simp only [mkBloomFilter, realValue?]
    rw [if_neg (by norm_num), if_neg (by norm_num)]
  · simp [mkBloomFilter, realValue?]
  · intro n p hn hp0 hp1
    simp only [mkBloomFilter, realValue?]
    rw [if_neg (not_le.mpr hn), if_pos ⟨hp0, hp1⟩]
    exact ⟨_, rfl⟩

theorem construction_validation_witness :
    (mkBloomFilter shaStub md5Stub (.intArg 0) .otherArg [] =
      .error .invalidArgument) ∧
    (∃ bf, mkBloomFilter shaStub md5Stub (.intArg 1) (.floatArg (1 / 2)) [] =
      .ok bf) :=
  ⟨(construction_validation shaStub md5Stub).2.2.1 0 .otherArg [] le_rfl,
   (construction_validation shaStub md5Stub).2.2.2.2.2.2.2 1 (1 / 2)
     (by norm_num) (by norm_num) (by norm_num)⟩

section LogBounds

theorem log_1024_eq : Real.log 1024 = 10 * Real.log 2 := by
  have h : (1024 : Real) = 2 ^ (10 : Nat) := by norm_num
  rw [h, Real.log_pow]
  norm_num

theorem log_1000_eq : Real.log 1000 = 3 * Real.log 10 := by
  have h : (1000 : Real) = 10 ^ (3 : Nat) := by norm_num
  rw [h, Real.log_pow]
  norm_num

/-- Rational bounds on `log 10`, from `2^10 = 1000 * (128/125)`, the d9
bounds on `log 2`, and the Taylor estimate for `log (128/125)`. -/
theorem log_ten_bounds :
    (2.30258508 : Real) < Real.log 10 ∧ Real.log 10 < (2.30258510 : Real) := by
  have hsplit : Real.log 1024 = Real.log 1000 + Real.log (128 / 125) := by
    rw [← Real.log_mul (by norm_num) (by norm_num)]
    norm_num
  have habs : |(-(3 / 125) : Real)| < 1 := by
    rw [abs_lt]
    constructor <;> norm_num
  have htay := Real.abs_log_sub_add_sum_range_le habs 4
  have hxabs : |(-(3 / 125) : Real)| = 3 / 125 := by
    rw [abs_neg, abs_of_nonneg (by norm_num : (0:Real) ≤ 3 / 125)]
  rw [hxabs] at htay
  have hsum : (∑ i ∈ Finset.range 4, (-(3 / 125) : Real) ^ (i + 1) / (i + 1)) =
      -(23160669 / 976562500 : Real) := by
    rw [Finset.sum_range_succ, Finset.sum_range_succ, Finset.sum_range_succ,
      Finset.sum_range_succ, Finset.sum_range_zero]
    norm_num
  have h1x : (1 : Real) - (-(3 / 125)) = 128 / 125 := by norm_num
  rw [hsum, h1x] at htay
  have herr : ((3 : Real) / 125) ^ (4 + 1) / (1 - 3 / 125) = 243 / 29785156250 := by
    norm_num
  rw [herr, abs_le] at htay
  obtain ⟨ht1, ht2⟩ := htay
  have h2lo := Real.log_two_gt_d9
  have h2hi := Real.log_two_lt_d9
  have hmain : 3 * Real.log 10 = 10 * Real.log 2 - Real.log (128 / 125) := by
    rw [← log_1000_eq, ← log_1024_eq, hsplit]
    ring
  constructor <;> nlinarith [ht1, ht2, hmain, h2lo, h2hi]

end LogBounds

section ParamDerivation

/-- For a positive `n` and a positive `p`, `_calculate_optimal_params`
takes no fallback branch and returns the two clamped ceilings. -/
theorem calcParams_eq (n : Int) (p : Real) (hn : 0 < n) (hp : 0 < p) :
    calculateOptimalParams n p =
      (max 1 ⌈-((n : Real) * Real.log p) / (Real.log 2) ^ 2⌉,
       max 1 ⌈(((⌈-((n : Real) * Real.log p) / (Real.log 2) ^ 2⌉ : Int) : Real) /
         (n : Real)) * Real.log 2⌉) := by
  simp only [calculateOptimalParams, mathLog, if_neg (not_le.mpr hn),
    if_neg (not_le.mpr hp)]

theorem log_hundredth : Real.log (1 / 100) = -(2 * Real.log 10) := by
  rw [one_div, Real.log_inv]
  have h : (100 : Real) = 10 ^ (2 : Nat) := by norm_num
  rw [h, Real.log_pow]
  norm_num

theorem log_ten_thousandth : Real.log (1 / 10000) = -(4 * Real.log 10) := by
  rw [one_div, Real.log_inv]
  have h : (10000 : Real) = 10 ^ (4 : Nat) := by norm_num
  rw [h, Real.log_pow]
  norm_num

theorem log_two_sq_lt : (Real.log 2) ^ 2 < (0.6931471808 : Real) ^ 2 := by
  have h2pos : (0 : Real) < Real.log 2 := Real.log_pos (by norm_num)
  nlinarith [Real.log_two_lt_d9]

theorem log_two_sq_gt : (0.6931471803 : Real) ^ 2 < (Real.log 2) ^ 2 := by
  nlinarith [Real.log_two_gt_d9]

theorem calcParams_case1 : calculateOptimalParams 1000 (1 / 100) = (9586, 7) := by
  rw [calcParams_eq 1000 (1 / 100) (by norm_num) (by norm_num)]
  have h2pos : (0 : Real) < Real.log 2 := Real.log_pos (by norm_num)
  have hsqpos : (0 : Real) < (Real.log 2) ^ 2 := pow_pos h2pos 2
  have harg : -(((1000 : Int) : Real) * Real.log (1 / 100)) / (Real.log 2) ^ 2 =
      (2000 * Real.log 10) / (Real.log 2) ^ 2 := by
    rw [log_hundredth]
    push_cast
    ring
  rw [harg]
  have hm : (⌈(2000 * Real.log 10) / (Real.log 2) ^ 2⌉ : Int) = 9586 := by
    rw [Int.ceil_eq_iff]
    constructor
    · rw [lt_div_iff₀ hsqpos]
      push_cast
      nlinarith [log_ten_bounds.1, log_two_sq_lt]
    · rw [div_le_iff₀ hsqpos]
      push_cast
      nlinarith [log_ten_bounds.2, log_two_sq_gt]
  rw [hm]
  have hk : (⌈(((9586 : Int) : Real) / ((1000 : Int) : Real)) * Real.log 2⌉ : Int) = 7 := by
    rw [Int.ceil_eq_iff]
    push_cast
    constructor
    · nlinarith [Real.log_two_gt_d9]
    · nlinarith [Real.log_two_lt_d9]
  rw [hk]
  decide

theorem calcParams_case2 :
    calculateOptimalParams 1000000 (1 / 10000) = (19170117, 14) := by
  rw [calcParams_eq 1000000 (1 / 10000) (by norm_num) (by norm_num)]
  have h2pos : (0 : Real) < Real.log 2 := Real.log_pos (by norm_num)
  have hsqpos : (0 : Real) < (Real.log 2) ^ 2 := pow_pos h2pos 2
  have harg : -(((1000000 : Int) : Real) * Real.log (1 / 10000)) / (Real.log 2) ^ 2 =
      (4000000 * Real.log 10) / (Real.log 2) ^ 2 := by
    rw [log_ten_thousandth]
    push_cast
    ring
  rw [harg]
  have hm : (⌈(4000000 * Real.log 10) / (Real.log 2) ^ 2⌉ : Int) = 19170117 := by
    rw [Int.ceil_eq_iff]
    constructor
    · rw [lt_div_iff₀ hsqpos]
      push_cast
      nlinarith [log_ten_bounds.1, log_two_sq_lt]
    · rw [div_le_iff₀ hsqpos]
      push_cast
      nlinarith [log_ten_bounds.2, log_two_sq_gt]
  rw [hm]
  have hk : (⌈(((19170117 : Int) : Real) / ((1000000 : Int) : Real)) *
      Real.log 2⌉ : Int) = 14 := by
    rw [Int.ceil_eq_iff]
    push_cast
    constructor
    · nlinarith [Real.log_two_gt_d9]
    · nlinarith [Real.log_two_lt_d9]
  rw [hk]
  decide

theorem calcParams_case3 :
    1 ≤ (calculateOptimalParams 1 (1 / 10)).1 ∧
    1 ≤ (calculateOptimalParams 1 (1 / 10)).2 := by
  rw [calcParams_eq 1 (1 / 10) (by norm_num) (by norm_num)]
  exact ⟨le_max_left _ _, le_max_left _ _⟩

theorem calcParams_fallback : calculateOptimalParams 1000 0 = (1, 1) := by
  simp [calculateOptimalParams, mathLog]

/-- `num_bits` exactly as the specification words it. -/
noncomputable def specNumBits (n : Int) (p : Real) : Int :=
  max 1 ⌈-((n : Real) * Real.log p) / (Real.log 2) ^ 2⌉

/-- `num_hashes` exactly as the specification words it (computed from the
clamped `num_bits`). -/
noncomputable def specNumHashes (n : Int) (p : Real) : Int :=
  max 1 ⌈((specNumBits n p : Real) / (n : Real)) * Real.log 2⌉

/-- On valid inputs the code's parameter derivation (which computes `k`
from the pre-clamp `m`) agrees with the spec's formulas (which use the
clamped `m`), because the ceiling is already at least 1 there. -/
theorem calcParams_formula (n : Int) (p : Real) (hn : 0 < n)
    (hp0 : 0 < p) (hp1 : p < 1) :
    calculateOptimalParams n p = (specNumBits n p, specNumHashes n p) := by
  rw [calcParams_eq n p hn hp0]
  have hmpos : 0 < ⌈-((n : Real) * Real.log p) / (Real.log 2) ^ 2⌉ := by
    apply Int.ceil_pos.mpr
    apply div_pos
    · have hlp : Real.log p < 0 := Real.log_neg hp0 hp1
      have hnr : (0 : Real) < (n : Real) := by exact_mod_cast hn
      nlinarith
    · exact pow_pos (Real.log_pos (by norm_num)) 2
  have hmax : max (1 : Int) ⌈-((n : Real) * Real.log p) / (Real.log 2) ^ 2⌉ =
      ⌈-((n : Real) * Real.log p) / (Real.log 2) ^ 2⌉ :=
    max_eq_right (by linarith)
  simp only [specNumBits, specNumHashes, hmax]

end ParamDerivation

/-- C4. Parameter derivation: the regression values for
`(n, p) = (1000, 0.01)` and `(1000000, 0.0001)` land inside the claimed
±1 windows, `(1, 0.1)` yields both parameters at least 1, a domain error
of `math.log` makes the computation fall back to `(1, 1)`, and on every
valid input the derivation equals the claimed clamped-ceiling formulas. -/
theorem calculateOptimalParams_spec :
    (9584 ≤ (calculateOptimalParams 1000 (1 / 100)).1 ∧
      (calculateOptimalParams 1000 (1 / 100)).1 ≤ 9586 ∧
      6 ≤ (calculateOptimalParams 1000 (1 / 100)).2 ∧
      (calculateOptimalParams 1000 (1 / 100)).2 ≤ 8) ∧
    (19170116 ≤ (calculateOptimalParams 1000000 (1 / 10000)).1 ∧
      (calculateOptimalParams 1000000 (1 / 10000)).1 ≤ 19170118 ∧
      12 ≤ (calculateOptimalParams 1000000 (1 / 10000)).2 ∧
      (calculateOptimalParams 1000000 (1 / 10000)).2 ≤ 14) ∧
    (1 ≤ (calculateOptimalParams 1 (1 / 10)).1 ∧
      1 ≤ (calculateOptimalParams 1 (1 / 10)).2) ∧
    calculateOptimalParams 1000 0 = (1, 1) ∧
    (∀ (n : Int) (p : Real), 0 < n → 0 < p → p < 1 →
      calculateOptimalParams n p = (specNumBits n p, specNumHashes n p)) := by
  refine ⟨?_, ?_, calcParams_case3, calcParams_fallback, calcParams_formula⟩
  · rw [calcParams_case1]
    norm_num
  · rw [calcParams_case2]
    norm_num

theorem calculateOptimalParams_spec_witness :
    calculateOptimalParams 2 (1 / 2) =
      (specNumBits 2 (1 / 2), specNumHashes 2 (1 / 2)) :=
  calculateOptimalParams_spec.2.2.2.2 2 (1 / 2) (by norm_num) (by norm_num)
    (by norm_num)
